import Mathlib

/-!
Shallow embedding of the chunking-and-retrieval pipeline of
`src/backend/engine.py` (class `DeepyEngine`), with proofs about the
specification's claims.

Texts are modelled as `List Char`.  The Python string primitives used by
the source (`s[a:b]` slicing with negative-index semantics, `str.strip`,
`str.rfind`, `str.split(sep)`, `str.replace(old, new)`, `str.startswith`,
`"sep" in s`) are modelled first; each pipeline function is then a direct
transcription of the corresponding Python code.  Loops are modelled with
an explicit fuel argument (structural recursion) so every definition is
executable by the kernel.  For the substring scanners the loop always
terminates, consuming at least one character of a nonempty separator per
round, so the supplied fuel (`length + 1`) is never exhausted and the
fuel-out branch repeats the not-found result.  For the chunking loop,
which can genuinely diverge (see `splitGo_bad_cycle`), exhausted fuel is
reported as `none`.

The vector store and the LLM service are external collaborators: only
the data this code hands them (record ids, documents, metadata, batch
boundaries, the context block, the formatted source list) is modelled.
`os.path.basename(file_path)` is an external library call; ingestion is
parametrised by the resulting base name.
-/

/-- Python `str.strip()` whitespace test, for the ASCII range
(space, tab, newline, carriage return, vertical tab, form feed). -/
def pySpace (c : Char) : Bool :=
  c = ' ' || c = '\t' || c = '\n' || c = '\r' || c = '\x0b' || c = '\x0c'

/-- Python `s.strip()`: drop whitespace from both ends. -/
def pyStrip (l : List Char) : List Char :=
  ((l.dropWhile pySpace).reverse.dropWhile pySpace).reverse

/-- Adjust one Python slice index: a negative index counts from the end,
and the result is clamped into `[0, n]`. -/
def pyAdj (n : Nat) (i : Int) : Nat :=
  if i < 0 then ((n : Int) + i).toNat else min i.toNat n

/-- Python `s[a:b]` (step 1): both endpoints adjusted, empty when the
adjusted start is at or past the adjusted end. -/
def pySlice (s : List Char) (a b : Int) : List Char :=
  (s.take (pyAdj s.length b)).drop (pyAdj s.length a)

/-- Helper for `rfindNL`: scan left to right remembering the index of the
last newline seen so far (`acc = -1` when none yet). -/
def rfindNLAux : List Char → Nat → Int → Int
  | [], _, acc => acc
  | c :: rest, i, acc => rfindNLAux rest (i + 1) (if c = '\n' then (i : Int) else acc)

/-- Python `chunk.rfind('\n')`: index of the last newline, `-1` if absent. -/
def rfindNL (l : List Char) : Int :=
  rfindNLAux l 0 (-1)

/-- One iteration of the `while start < len(text)` loop of
`_split_into_chunks` (engine.py lines 148-160), returning the string
appended to `chunks` and the next value of `start`.  Source:
`end = start + chunk_size; chunk = text[start:end]`; if `end < len(text)`
and `chunk.rfind('\n') > chunk_size // 2` then
`chunk = chunk[:last_newline]; end = start + last_newline`; finally
`chunks.append(chunk.strip()); start = end - overlap`. -/
def splitStep (text : List Char) (cs ov : Nat) (start : Int) : List Char × Int :=
  if start + (cs : Int) < (text.length : Int) then
    if rfindNL (pySlice text start (start + (cs : Int))) > ((cs / 2 : Nat) : Int) then
      (pyStrip ((pySlice text start (start + (cs : Int))).take
          (rfindNL (pySlice text start (start + (cs : Int)))).toNat),
        start + rfindNL (pySlice text start (start + (cs : Int))) - (ov : Int))
    else
      (pyStrip (pySlice text start (start + (cs : Int))), start + (cs : Int) - (ov : Int))
  else
    (pyStrip (pySlice text start (start + (cs : Int))), start + (cs : Int) - (ov : Int))

/-- The chunking loop of `_split_into_chunks`, with fuel: `none` means the
loop was still running after `fuel` iterations. -/
def splitGo (text : List Char) (cs ov : Nat) : Nat → Int → Option (List (List Char))
  | 0, start => if start < (text.length : Int) then none else some []
  | n + 1, start =>
      if start < (text.length : Int) then
        (splitGo text cs ov n (splitStep text cs ov start).2).map
          (fun r => (splitStep text cs ov start).1 :: r)
      else some []

/-- `_split_into_chunks(text, chunk_size, overlap)` (engine.py lines
143-162): run the loop from `start = 0`, then keep only the chunks that
are nonempty after stripping (`[c for c in chunks if c]`).  Fuel
`text.length + 1` covers every run in which each iteration advances
`start` by at least one — in particular every run with
`overlap ≤ chunk_size / 2`, see `splitGo_total`. -/
def splitIntoChunks (text : List Char) (cs ov : Nat) : Option (List (List Char)) :=
  (splitGo text cs ov (text.length + 1) 0).map (List.filter (fun c => !c.isEmpty))

/-- Python `a.startswith(b)` viewed from the pattern side:
`isPre pat l` is true when `pat` begins `l`. -/
def isPre : List Char → List Char → Bool
  | [], _ => true
  | _ :: _, [] => false
  | a :: as, b :: bs => a = b && isPre as bs

/-- Index of the leftmost occurrence of `pat` in `l`, if any
(Python `l.find(pat)` restricted to the uses below, where `pat` is a
fixed nonempty literal). -/
def findSub : List Char → List Char → Option Nat
  | pat, [] => if pat.isEmpty then some 0 else none
  | pat, c :: rest => if isPre pat (c :: rest) then some 0 else (findSub pat rest).map (· + 1)

/-- Python `l.split(sep)` scanning loop with fuel.  Every call site uses
a nonempty `sep`, so each round consumes at least `sep.length ≥ 1`
characters and the fuel `l.length + 1` supplied by `pySplitStr` is never
exhausted; the fuel-out branch repeats the not-found behaviour. -/
def pySplitF (sep : List Char) : Nat → List Char → List (List Char)
  | 0, l => [l]
  | fuel + 1, l =>
      match findSub sep l with
      | none => [l]
      | some i => l.take i :: pySplitF sep fuel (l.drop (i + sep.length))

/-- Python `l.split(sep)` for a nonempty separator: split at every
non-overlapping occurrence, left to right, keeping empty pieces. -/
def pySplitStr (sep l : List Char) : List (List Char) := pySplitF sep (l.length + 1) l

/-- Python `l.replace(old, "")` scanning loop with fuel (same fuel
discipline as `pySplitF`). -/
def removeAllF (sep : List Char) : Nat → List Char → List Char
  | 0, l => l
  | fuel + 1, l =>
      match findSub sep l with
      | none => l
      | some i => l.take i ++ removeAllF sep fuel (l.drop (i + sep.length))

/-- Python `l.replace(old, "")` for a nonempty `old`: remove every
non-overlapping occurrence, left to right. -/
def removeAllStr (sep l : List Char) : List Char := removeAllF sep (l.length + 1) l

/-- The bundle separator: 16 consecutive equal signs (engine.py line 38/46). -/
def sep16 : List Char := List.replicate 16 '='

/-- The header marker `FILE:` (engine.py lines 63-64). -/
def fileColon : List Char := "FILE:".toList

/-- Python `s.split('\n')`. -/
def splitLines (l : List Char) : List (List Char) := pySplitStr ['\n'] l

/-- Detection rule `"================" in content` (engine.py line 38). -/
def hasSep (content : List Char) : Bool := (findSub sep16 content).isSome

/-- `content.split("================")` (engine.py line 46). -/
def splitBlocks (content : List Char) : List (List Char) := pySplitStr sep16 content

/-- The synthesized name `f"section_{file_idx}"` (engine.py line 66). -/
def sectionName (idx : Nat) : List Char := "section_".toList ++ Nat.toDigits 10 idx

/-- The per-block body of the `for file_idx, file_block in enumerate(files)`
loop of `_ingest_awesome_format` (engine.py lines 53-69): `none` when the
block is skipped (`continue`), otherwise the logical document's
`(file_name, file_content)`.  Source: skip when `not file_block.strip()`;
`lines = file_block.strip().split('\n')`; skip when `len(lines) < 2`;
`file_header = lines[0].strip()`; if `file_header.startswith("FILE:")`
then `file_name = file_header.replace("FILE:", "").strip()` else
`file_name = f"section_{file_idx}"`; `file_content = '\n'.join(lines[1:])`. -/
def handleBlock (idx : Nat) (b : List Char) : Option (List Char × List Char) :=
  if (pyStrip b).isEmpty then none
  else
    match splitLines (pyStrip b) with
    | l0 :: l1 :: rest =>
        some
          (if isPre fileColon (pyStrip l0) then pyStrip (removeAllStr fileColon (pyStrip l0))
           else sectionName idx,
           List.intercalate ['\n'] (l1 :: rest))
    | _ => none

/-- The enumerate-with-skips loop over the raw split, collecting the kept
logical documents in order. -/
def parseFrom : Nat → List (List Char) → List (List Char × List Char)
  | _, [] => []
  | i, b :: rest =>
      match handleBlock i b with
      | none => parseFrom (i + 1) rest
      | some g => g :: parseFrom (i + 1) rest

/-- Bundle parsing: split on the separator and run the block loop. -/
def parseAwesome (content : List Char) : List (List Char × List Char) :=
  parseFrom 0 (splitBlocks content)

/-- The chunker at the pipeline's fixed parameters
`chunk_size=3000, overlap=300` (engine.py lines 72 and 112).  With these
parameters the loop always terminates (`splitChunks3000_eq_some`), so the
`getD []` default is never taken. -/
def splitChunks3000 (text : List Char) : List (List Char) :=
  (splitIntoChunks text 3000 300).getD []

/-- One record handed to `collection.add`: the id, the document text and
the metadata fields built by the ingestion loops (engine.py lines 74-85
and 120-130).  `originalFile` is the `"original_file"` metadata key,
present only for bundle chunks. -/
structure Record where
  rid : List Char
  doc : List Char
  source : List Char
  originalFile : Option (List Char)
  chunkId : Nat
  totalChunks : Nat
deriving DecidableEq, Repr

/-- `file_name.replace('/', '_')` acts characterwise. -/
def slashU (c : Char) : Char := if c = '/' then '_' else c

/-- `base_name.replace('.', '_')` acts characterwise. -/
def dotU (c : Char) : Char := if c = '.' then '_' else c

/-- The `for i, chunk in enumerate(chunks)` loop of
`_ingest_awesome_format` (engine.py lines 74-85):
`doc_id = f"{file_name.replace('/', '_')}_{i}"`, metadata
`source=file_name, original_file=basename, chunk_id=i,
total_chunks=len(chunks)`. -/
def awesomeChunkRecs (name orig : List Char) (total : Nat) : Nat → List (List Char) → List Record
  | _, [] => []
  | i, ch :: rest =>
      { rid := name.map slashU ++ '_' :: Nat.toDigits 10 i, doc := ch, source := name,
        originalFile := some orig, chunkId := i, totalChunks := total } ::
        awesomeChunkRecs name orig total (i + 1) rest

/-- All records prepared by `_ingest_awesome_format` (its `all_documents`
/ `all_metadatas` / `all_ids` triple, combined), in order. -/
def awesomeRecords (content base : List Char) : List Record :=
  ((parseAwesome content).map (fun g =>
    awesomeChunkRecs g.1 base (splitChunks3000 g.2).length 0 (splitChunks3000 g.2))).flatten

/-- The `for i, chunk in enumerate(chunks)` loop of `_ingest_single_file`
(engine.py lines 120-130):
`doc_id = f"{os.path.basename(file_path).replace('.', '_')}_{i}"`,
metadata `source=basename, chunk_id=i, total_chunks=len(chunks)`. -/
def singleChunkRecs (base : List Char) (total : Nat) : Nat → List (List Char) → List Record
  | _, [] => []
  | i, ch :: rest =>
      { rid := base.map dotU ++ '_' :: Nat.toDigits 10 i, doc := ch, source := base,
        originalFile := none, chunkId := i, totalChunks := total } ::
        singleChunkRecs base total (i + 1) rest

/-- All records prepared by `_ingest_single_file`. -/
def singleRecords (content base : List Char) : List Record :=
  singleChunkRecs base (splitChunks3000 content).length 0 (splitChunks3000 content)

/-- The batch loop `for i in range(0, len(all_documents), batch_size)`
with `batch_size = 100` (engine.py lines 91-103): each round submits
`all_documents[i:i+100]`.  Fuel `l.length + 1` is never exhausted since
`i` grows by 100 per round. -/
def batchLoop {α : Type} (l : List α) : Nat → Nat → List (List α)
  | 0, _ => []
  | fuel + 1, i =>
      if i < l.length then ((l.drop i).take 100) :: batchLoop l fuel (i + 100) else []

/-- The sequence of batches submitted by the bundle batch loop. -/
def addBatchesFrom {α : Type} (l : List α) : List (List α) := batchLoop l (l.length + 1) 0

/-- Bundle submission (engine.py lines 90-103): guarded by
`if all_documents:`, then the 100-element batch loop. -/
def awesomeSubmit (l : List Record) : List (List Record) :=
  if l.isEmpty then [] else addBatchesFrom l

/-- Single-file submission (engine.py lines 132-138): guarded by
`if documents:`, then one `collection.add` call with everything. -/
def singleSubmit (l : List Record) : List (List Record) :=
  if l.isEmpty then [] else [l]

/-- The value returned by `ingest_file` (engine.py lines 31-41, 108, 141):
`len(all_documents)` on the bundle path, `len(chunks)` on the single-file
path, choosing the path by the separator test. -/
def ingestFileCount (content base : List Char) : Nat :=
  if hasSep content then (awesomeRecords content base).length
  else (splitChunks3000 content).length

/-- The sequence of `collection.add` calls performed by `ingest_file`. -/
def ingestFileBatches (content base : List Char) : List (List Record) :=
  if hasSep content then awesomeSubmit (awesomeRecords content base)
  else singleSubmit (singleRecords content base)

/-- One retrieved document as `search` returns it: its text and the
optional `source` metadata entry (engine.py lines 171-178). -/
structure SearchDoc where
  content : List Char
  sourceMeta : Option (List Char)
deriving DecidableEq, Repr

/-- The default of `doc['metadata'].get('source', 'unknown')`. -/
def unknownSrc : List Char := "unknown".toList

/-- The literal `"Source: "` of the context block (engine.py line 184). -/
def srcLabel : List Char := "Source: ".toList

/-- One context entry: `f"Source: {source or unknown}\n{content}"`. -/
def ctxEntry (d : SearchDoc) : List Char :=
  srcLabel ++ (d.sourceMeta.getD unknownSrc) ++ '\n' :: d.content

/-- The context block of `generate_answer` (engine.py lines 183-186):
`"\n\n".join(context entries)` in retrieval order. -/
def buildContext (docs : List SearchDoc) : List Char :=
  List.intercalate ('\n' :: '\n' :: []) (docs.map ctxEntry)

/-- The `formatted_sources` list built by `chat` (engine.py lines
219-225): `(source or unknown, content)` per retrieved document, in
retrieval order. -/
def chatSources (docs : List SearchDoc) : List (List Char × List Char) :=
  docs.map (fun d => (d.sourceMeta.getD unknownSrc, d.content))

/-- Boolean form of the keep condition of the block loop: the block is
nonempty after stripping and its stripped form splits into at least two
lines. -/
def keepB (b : List Char) : Bool :=
  !(pyStrip b).isEmpty &&
    match splitLines (pyStrip b) with
    | _ :: _ :: _ => true
    | _ => false

/-- A 16-character text on which the chunking loop with `chunk_size=10`,
`overlap=9` cycles forever (see `splitGo_bad_cycle`). -/
def badText : List Char := "abcdef\nghijklmno".toList

/-- A sample record, used to exhibit an oversized single-file batch. -/
def demoRec : Record :=
  { rid := "x".toList, doc := "x".toList, source := "x".toList,
    originalFile := none, chunkId := 0, totalChunks := 1 }

/-- The single-file record of ingesting the two-character content `hi`
under base name `t.md`. -/
def hiRec : Record :=
  { rid := "t_md_0".toList, doc := "hi".toList, source := "t.md".toList,
    originalFile := none, chunkId := 0, totalChunks := 1 }

/-! ### Helper lemmas about the chunker -/

lemma dropWhile_length_le (p : Char → Bool) (l : List Char) :
    (l.dropWhile p).length ≤ l.length := by
  induction l with
  | nil => simp
  | cons a t ih =>
      rw [List.dropWhile_cons]
      split
      · exact le_trans ih (by simp)
      · simp

lemma pyStrip_length_le (l : List Char) : (pyStrip l).length ≤ l.length := by
  unfold pyStrip
  rw [List.length_reverse]
  refine le_trans (dropWhile_length_le _ _) ?_
  rw [List.length_reverse]
  exact dropWhile_length_le _ _

lemma pySlice_length_le (s : List Char) (a : Int) (k : Nat) :
    (pySlice s a (a + (k : Int))).length ≤ k := by
  unfold pySlice pyAdj
  simp only [List.length_drop, List.length_take]
  split <;> split <;> omega

lemma splitStep_fst_length (text : List Char) (cs ov : Nat) (start : Int) :
    (splitStep text cs ov start).1.length ≤ cs := by
  unfold splitStep
  split
  · split
    · dsimp only
      refine le_trans (pyStrip_length_le _) (le_trans ?_ (pySlice_length_le text start cs))
      rw [List.length_take]
      exact min_le_right _ _
    · dsimp only
      exact le_trans (pyStrip_length_le _) (pySlice_length_le text start cs)
  · dsimp only
    exact le_trans (pyStrip_length_le _) (pySlice_length_le text start cs)

lemma splitGo_length_le (text : List Char) (cs ov : Nat) :
    ∀ (n : Nat) (start : Int) (res : List (List Char)),
      splitGo text cs ov n start = some res → ∀ c ∈ res, c.length ≤ cs := by
  intro n
  induction n with
  | zero =>
      intro start res h c hc
      rw [splitGo] at h
      split at h
      · exact absurd h (by simp)
      · simp at h; subst h; simp at hc
  | succ m ih =>
      intro start res h c hc
      rw [splitGo] at h
      split at h
      · rcases Option.map_eq_some'.mp h with ⟨r, hr, hres⟩
        subst hres
        rcases List.mem_cons.mp hc with h1 | h2
        · subst h1; exact splitStep_fst_length text cs ov start
        · exact ih _ r hr c h2
      · simp at h; subst h; simp at hc

lemma splitStep_progress (text : List Char) (cs ov : Nat) (start : Int)
    (hcs : 0 < cs) (hov : ov ≤ cs / 2) :
    start + 1 ≤ (splitStep text cs ov start).2 := by
  unfold splitStep
  split
  · split
    · rename_i h2
      have h3 : (ov : Int) ≤ ((cs / 2 : Nat) : Int) := by exact_mod_cast hov
      omega
    · have h4 : (ov : Int) ≤ ((cs / 2 : Nat) : Int) := by exact_mod_cast hov
      have h5 : ((cs / 2 : Nat) : Int) < (cs : Int) := by
        exact_mod_cast Nat.div_lt_self hcs (by norm_num)
      omega
  · have h4 : (ov : Int) ≤ ((cs / 2 : Nat) : Int) := by exact_mod_cast hov
    have h5 : ((cs / 2 : Nat) : Int) < (cs : Int) := by
      exact_mod_cast Nat.div_lt_self hcs (by norm_num)
    omega

lemma splitGo_total (text : List Char) (cs ov : Nat) (hcs : 0 < cs) (hov : ov ≤ cs / 2) :
    ∀ (n : Nat) (start : Int), (text.length : Int) - start < n →
      (splitGo text cs ov n start).isSome := by
  intro n
  induction n with
  | zero => intro start h; rw [splitGo]; rw [if_neg (by omega)]; rfl
  | succ m ih =>
      intro start h
      rw [splitGo]
      by_cases hg : start < (text.length : Int)
      · rw [if_pos hg]
        have hp := splitStep_progress text cs ov start hcs hov
        obtain ⟨v, hv⟩ := Option.isSome_iff_exists.mp (ih (splitStep text cs ov start).2 (by omega))
        rw [hv]
        rfl
      · rw [if_neg hg]; rfl

lemma splitIntoChunks_isSome (text : List Char) (cs ov : Nat)
    (hcs : 0 < cs) (hov : ov ≤ cs / 2) :
    (splitIntoChunks text cs ov).isSome := by
  unfold splitIntoChunks
  obtain ⟨v, hv⟩ := Option.isSome_iff_exists.mp
    (splitGo_total text cs ov hcs hov (text.length + 1) 0 (by omega))
  rw [hv]
  rfl

lemma splitChunks3000_eq_some (text : List Char) :
    splitIntoChunks text 3000 300 = some (splitChunks3000 text) := by
  obtain ⟨v, hv⟩ := Option.isSome_iff_exists.mp
    (splitIntoChunks_isSome text 3000 300 (by norm_num) (by norm_num))
  rw [splitChunks3000, hv]
  rfl

/-- The chunking loop at `chunk_size=10, overlap=9` on `badText` revisits
`start ∈ {0, -3, -2, -1}` forever, so it returns `none` at every fuel:
a genuine divergence of the Python loop, not a fuel artifact. -/
lemma splitGo_bad_cycle : ∀ n : Nat,
    splitGo badText 10 9 n 0 = none ∧ splitGo badText 10 9 n (-3) = none ∧
    splitGo badText 10 9 n (-2) = none ∧ splitGo badText 10 9 n (-1) = none := by
  intro n
  induction n with
  | zero => exact ⟨by decide, by decide, by decide, by decide⟩
  | succ m ih =>
      refine ⟨?_, ?_, ?_, ?_⟩
      · rw [splitGo, if_pos (by decide),
          show splitStep badText 10 9 0 = ("abcdef".toList, -3) from by decide]
        rw [ih.2.1]; rfl
      · rw [splitGo, if_pos (by decide),
          show splitStep badText 10 9 (-3) = ([], -2) from by decide]
        rw [ih.2.2.1]; rfl
      · rw [splitGo, if_pos (by decide),
          show splitStep badText 10 9 (-2) = ([], -1) from by decide]
        rw [ih.2.2.2]; rfl
      · rw [splitGo, if_pos (by decide),
          show splitStep badText 10 9 (-1) = (pyStrip (pySlice badText (-1) 9), 0) from by decide]
        rw [ih.1]; rfl

/-! ### Helper lemmas for the short-text behaviour of the chunker -/

lemma dropWhile_replicate_a (n : Nat) :
    (List.replicate n 'a').dropWhile pySpace = List.replicate n 'a' := by
  cases n with
  | zero => rfl
  | succ m =>
      rw [List.replicate_succ, List.dropWhile_cons]
      simp [show pySpace 'a' = false from rfl]

lemma pyStrip_replicate_a (n : Nat) :
    pyStrip (List.replicate n 'a') = List.replicate n 'a' := by
  unfold pyStrip
  rw [dropWhile_replicate_a, List.reverse_replicate, dropWhile_replicate_a,
    List.reverse_replicate]

lemma slice_repl_1 : pySlice (List.replicate 2701 'a') 0 (0 + ((3000 : Nat) : Int)) =
    List.replicate 2701 'a' := by
  unfold pySlice pyAdj
  norm_num

lemma slice_repl_2 :
    pySlice (List.replicate 2701 'a') 2700 (2700 + ((3000 : Nat) : Int)) = ['a'] := by
  unfold pySlice pyAdj
  norm_num [List.take_replicate, List.drop_replicate]
  rw [show (2701 - Int.toNat 2700) = 1 by rw [show Int.toNat 2700 = 2700 from rfl]]
  rfl

lemma step_repl_1 :
    splitStep (List.replicate 2701 'a') 3000 300 0 = (List.replicate 2701 'a', 2700) := by
  unfold splitStep
  rw [if_neg (by norm_num : ¬ ((0 : Int) + ((3000 : Nat) : Int) <
    ((List.replicate 2701 'a').length : Int)))]
  rw [slice_repl_1, pyStrip_replicate_a]
  norm_num

lemma step_repl_2 :
    splitStep (List.replicate 2701 'a') 3000 300 2700 = (['a'], 5400) := by
  unfold splitStep
  rw [if_neg (by norm_num : ¬ ((2700 : Int) + ((3000 : Nat) : Int) <
    ((List.replicate 2701 'a').length : Int)))]
  rw [slice_repl_2, show (['a'] : List Char) = List.replicate 1 'a' from rfl,
    pyStrip_replicate_a]
  norm_num

lemma repl_2701_not_empty : (List.replicate 2701 'a').isEmpty = false := by
  rw [show (2701 : Nat) = 2700 + 1 by norm_num, List.replicate_succ]
  rfl

lemma splitIntoChunks_repl_2701 :
    splitIntoChunks (List.replicate 2701 'a') 3000 300 =
      some [List.replicate 2701 'a', ['a']] := by
  unfold splitIntoChunks
  rw [List.length_replicate]
  rw [splitGo]
  rw [if_pos (by norm_num : (0 : Int) < ((List.replicate 2701 'a').length : Int))]
  rw [step_repl_1]
  rw [show (2701 : Nat) = 2700 + 1 by norm_num, splitGo]
  rw [if_pos (by norm_num : (2700 : Int) < ((List.replicate 2701 'a').length : Int))]
  rw [step_repl_2]
  rw [show (2700 : Nat) = 2699 + 1 by norm_num, splitGo]
  rw [if_neg (by norm_num : ¬ ((5400 : Int) < ((List.replicate 2701 'a').length : Int)))]
  simp only [Option.map_some']
  rw [List.filter_cons, List.filter_cons, List.filter_nil, repl_2701_not_empty]
  norm_num

lemma pySlice_zero_full (text : List Char) (cs : Nat) (hlen : text.length ≤ cs) :
    pySlice text 0 (0 + (cs : Int)) = text := by
  unfold pySlice pyAdj
  rw [if_neg (by omega : ¬ ((0 : Int) + (cs : Int) < 0)), if_neg (by omega : ¬ ((0 : Int) < 0))]
  rw [show ((0 : Int) + (cs : Int)).toNat = cs by omega, show ((0 : Int)).toNat = 0 from rfl]
  rw [min_eq_right hlen, Nat.zero_min, List.take_length, List.drop_zero]

lemma splitStep_zero_short (text : List Char) (cs ov : Nat) (hlen : text.length ≤ cs) :
    splitStep text cs ov 0 = (pyStrip text, (cs : Int) - (ov : Int)) := by
  unfold splitStep
  rw [if_neg (by push_cast; omega : ¬ ((0 : Int) + (cs : Int) < (text.length : Int)))]
  rw [pySlice_zero_full text cs hlen]
  rw [show (0 : Int) + (cs : Int) - (ov : Int) = (cs : Int) - (ov : Int) by omega]

/-! ### Helper lemmas about batching -/

lemma batchLoop_flatten {α : Type} (l : List α) :
    ∀ fuel i, l.length ≤ i + fuel * 100 → (batchLoop l fuel i).flatten = l.drop i := by
  intro fuel
  induction fuel with
  | zero =>
      intro i h
      rw [batchLoop, List.flatten_nil]
      exact (List.drop_eq_nil_of_le (by omega)).symm
  | succ m ih =>
      intro i h
      rw [batchLoop]
      split
      · rw [List.flatten_cons, ih (i + 100) (by omega)]
        rw [show l.drop (i + 100) = (l.drop i).drop 100 by rw [List.drop_drop, Nat.add_comm]]
        exact List.take_append_drop 100 (l.drop i)
      · rename_i hlt
        rw [List.flatten_nil]
        exact (List.drop_eq_nil_of_le (by omega)).symm

lemma batchLoop_mem {α : Type} (l : List α) :
    ∀ fuel i b, b ∈ batchLoop l fuel i → b.length ≤ 100 ∧ b ≠ [] := by
  intro fuel
  induction fuel with
  | zero => intro i b hb; rw [batchLoop] at hb; simp at hb
  | succ m ih =>
      intro i b hb
      rw [batchLoop] at hb
      split at hb
      · rcases List.mem_cons.mp hb with h1 | h2
        · subst h1
          constructor
          · rw [List.length_take]; exact min_le_left _ _
          · rename_i hlt
            apply List.ne_nil_of_length_pos
            rw [List.length_take, List.length_drop]
            omega
        · exact ih (i + 100) b h2
      · simp at hb

lemma batchLoop_ne_nil {α : Type} (l : List α) (fuel i : Nat) :
    batchLoop l fuel i ≠ [] → i < l.length := by
  cases fuel with
  | zero => intro h; exact absurd rfl h
  | succ m =>
      intro h
      rw [batchLoop] at h
      by_cases hi : i < l.length
      · exact hi
      · rw [if_neg hi] at h; exact absurd rfl h

lemma batchLoop_nonlast {α : Type} (l : List α) :
    ∀ fuel i j, j + 1 < (batchLoop l fuel i).length →
      ((batchLoop l fuel i).getD j []).length = 100 := by
  intro fuel
  induction fuel with
  | zero => intro i j h; rw [batchLoop] at h; simp at h
  | succ m ih =>
      intro i j h
      rw [batchLoop] at h ⊢
      split at h
      · rename_i hlt
        rw [if_pos hlt] at *
        cases j with
        | zero =>
            have hrest : batchLoop l m (i + 100) ≠ [] := by
              intro hnil
              rw [List.length_cons, hnil] at h
              simp at h
            have hlen : i + 100 < l.length := batchLoop_ne_nil l m (i + 100) hrest
            show ((l.drop i).take 100).length = 100
            rw [List.length_take, List.length_drop]
            omega
        | succ k =>
            show ((batchLoop l m (i + 100)).getD k []).length = 100
            apply ih
            rw [List.length_cons] at h
            omega
      · rename_i hlt
        rw [if_neg hlt] at *
        simp at h

lemma addBatchesFrom_flatten {α : Type} (l : List α) : (addBatchesFrom l).flatten = l := by
  unfold addBatchesFrom
  rw [batchLoop_flatten l (l.length + 1) 0 (by omega), List.drop_zero]

lemma awesomeSubmit_flatten (l : List Record) : (awesomeSubmit l).flatten = l := by
  unfold awesomeSubmit
  cases hl : l.isEmpty with
  | true => simp at hl; simp [hl]
  | false => simp [addBatchesFrom_flatten]

lemma singleSubmit_flatten (l : List Record) : (singleSubmit l).flatten = l := by
  unfold singleSubmit
  cases hl : l.isEmpty with
  | true => simp at hl; simp [hl]
  | false => simp

lemma singleChunkRecs_length (base : List Char) (total : Nat) :
    ∀ chunks i, (singleChunkRecs base total i chunks).length = chunks.length := by
  intro chunks
  induction chunks with
  | nil => intro i; rfl
  | cons c t ih => intro i; rw [singleChunkRecs, List.length_cons, List.length_cons, ih]

/-! ### Helper lemmas about the bundle parser -/

lemma handleBlock_isSome (i : Nat) (b : List Char) : (handleBlock i b).isSome = keepB b := by
  unfold handleBlock keepB
  cases hI : (pyStrip b).isEmpty with
  | true => simp
  | false =>
      cases hL : splitLines (pyStrip b) with
      | nil => simp [hL]
      | cons l0 t =>
          cases t with
          | nil => simp [hL]
          | cons l1 rest => simp [hL]

lemma parseFrom_length : ∀ (bs : List (List Char)) (i : Nat),
    (parseFrom i bs).length = (bs.filter keepB).length := by
  intro bs
  induction bs with
  | nil => intro i; rfl
  | cons b t ih =>
      intro i
      rw [parseFrom, List.filter_cons]
      cases hb : handleBlock i b with
      | none =>
          have hk : keepB b = false := by
            have := handleBlock_isSome i b
            rw [hb] at this
            exact this.symm
          rw [hk]
          simp [ih]
      | some g =>
          have hk : keepB b = true := by
            have := handleBlock_isSome i b
            rw [hb] at this
            exact this.symm
          rw [hk]
          simp [ih]

lemma handleBlock_section (i : Nat) (b : List Char) (hk : keepB b = true)
    (hf : isPre fileColon (pyStrip ((splitLines (pyStrip b)).headD [])) = false) :
    (handleBlock i b).map Prod.fst = some (sectionName i) := by
  unfold keepB at hk
  rw [Bool.and_eq_true] at hk
  obtain ⟨hI, hM⟩ := hk
  rw [Bool.not_eq_true'] at hI
  cases hL : splitLines (pyStrip b) with
  | nil => rw [hL] at hM; simp at hM
  | cons l0 t =>
      cases t with
      | nil => rw [hL] at hM; simp at hM
      | cons l1 rest =>
          rw [hL] at hf
          simp only [List.headD_cons] at hf
          unfold handleBlock
          rw [hI, hL]
          simp [hf]

/-! ### Helper lemmas about record identifiers -/

lemma awesomeChunkRecs_spec (name orig : List Char) (total : Nat) :
    ∀ (chunks : List (List Char)) (i : Nat) (r : Record),
      r ∈ awesomeChunkRecs name orig total i chunks →
        r.rid = r.source.map slashU ++ '_' :: Nat.toDigits 10 r.chunkId ∧ r.source = name := by
  intro chunks
  induction chunks with
  | nil => intro i r hr; simp [awesomeChunkRecs] at hr
  | cons c t ih =>
      intro i r hr
      rw [awesomeChunkRecs] at hr
      rcases List.mem_cons.mp hr with h1 | h2
      · subst h1; exact ⟨rfl, rfl⟩
      · exact ih (i + 1) r h2

lemma singleChunkRecs_spec (base : List Char) (total : Nat) :
    ∀ (chunks : List (List Char)) (i : Nat) (r : Record),
      r ∈ singleChunkRecs base total i chunks →
        r.rid = base.map dotU ++ '_' :: Nat.toDigits 10 r.chunkId ∧ r.source = base := by
  intro chunks
  induction chunks with
  | nil => intro i r hr; simp [singleChunkRecs] at hr
  | cons c t ih =>
      intro i r hr
      rw [singleChunkRecs] at hr
      rcases List.mem_cons.mp hr with h1 | h2
      · subst h1; exact ⟨rfl, rfl⟩
      · exact ih (i + 1) r h2

lemma awesomeRecords_spec (content base : List Char) (r : Record)
    (hr : r ∈ awesomeRecords content base) :
    r.rid = r.source.map slashU ++ '_' :: Nat.toDigits 10 r.chunkId := by
  unfold awesomeRecords at hr
  rcases List.mem_flatten.mp hr with ⟨lr, hlr, hrin⟩
  rcases List.mem_map.mp hlr with ⟨g, hg, hgl⟩
  subst hgl
  exact (awesomeChunkRecs_spec g.1 base _ _ 0 r hrin).1

/-! ### Helper lemma about the context block -/

lemma buildContext_cons (d : SearchDoc) (rest : List SearchDoc) :
    buildContext (d :: rest) =
      (srcLabel ++ (d.sourceMeta.getD unknownSrc) ++ '\n' :: d.content) ++
        (if rest.isEmpty then [] else '\n' :: '\n' :: buildContext rest) := by
  cases rest with
  | nil => simp [buildContext, ctxEntry, List.intercalate]
  | cons d2 t =>
      show buildContext (d :: d2 :: t) = ctxEntry d ++
        (if (d2 :: t).isEmpty then [] else '\n' :: '\n' :: buildContext (d2 :: t))
      simp only [List.isEmpty_cons, if_neg, Bool.false_eq_true, not_false_iff]
      unfold buildContext
      rw [List.map_cons, List.intercalate, List.intercalate, List.map_cons,
        List.intersperse_cons_cons, List.flatten_cons, List.flatten_cons]
      simp [List.append_assoc]

/-! ### Claim C1 -/

/-- C1, counterexample: the text of 2701 (non-whitespace) characters is
strictly shorter than the pipeline's `chunk_size = 3000`, yet
`_split_into_chunks` returns two chunks, not one: after emitting the
whole text the loop resumes at `start = 3000 - 300 = 2700 < 2701` and
emits the one-character tail as a second chunk. -/
theorem split_short_text_two_chunks :
    splitIntoChunks (List.replicate 2701 'a') 3000 300 =
        some [List.replicate 2701 'a', ['a']] ∧
      2701 < 3000 ∧
      splitIntoChunks (List.replicate 2701 'a') 3000 300 ≠
        some [pyStrip (List.replicate 2701 'a')] ∧
      splitIntoChunks (List.replicate 2701 'a') 3000 300 ≠ some [] := by
  have h := splitIntoChunks_repl_2701
  refine ⟨h, by norm_num, ?_, ?_⟩
  · rw [h, pyStrip_replicate_a]
    intro hc
    have h3 := congrArg List.length (Option.some.inj hc)
    rw [List.length_cons, List.length_cons, List.length_cons, List.length_nil] at h3
    exact absurd h3 (by norm_num)
  · rw [h]
    intro hc
    have h3 := congrArg List.length (Option.some.inj hc)
    rw [List.length_cons, List.length_cons, List.length_nil] at h3
    exact absurd h3 (by norm_num)

/-- C1, amended: for every input text whose length is at most
`chunk_size − overlap` (for the pipeline's fixed 3000/300: at most 2700
characters), `_split_into_chunks` returns exactly one chunk equal to the
whitespace-trimmed input, or zero chunks when the input consists
entirely of whitespace. -/
theorem split_short_text_single_chunk (text : List Char) (cs ov : Nat)
    (hcs : 0 < cs) (hov : ov < cs) (hlen : text.length ≤ cs - ov) :
    splitIntoChunks text cs ov =
      if (pyStrip text).isEmpty then some [] else some [pyStrip text] := by
  unfold splitIntoChunks
  cases text with
  | nil =>
      rw [show (([] : List Char).length + 1) = 0 + 1 from rfl, splitGo]
      rw [if_neg (by simp : ¬ ((0 : Int) < (([] : List Char).length : Int)))]
      simp [pyStrip]
  | cons a t =>
      rw [show ((a :: t).length + 1) = (t.length + 1) + 1 by simp, splitGo]
      rw [if_pos (by push_cast [List.length_cons]; omega :
        (0 : Int) < ((a :: t).length : Int))]
      rw [splitStep_zero_short (a :: t) cs ov (by omega)]
      rw [show (t.length + 1 : Nat) = t.length + 1 from rfl, splitGo]
      rw [if_neg (by push_cast; omega : ¬ ((cs : Int) - (ov : Int) < ((a :: t).length : Int)))]
      simp only [Option.map_some']
      rw [List.filter_cons, List.filter_nil]
      cases he : (pyStrip (a :: t)).isEmpty with
      | false => simp
      | true => simp

/-- C1, witness of the amended theorem at `text = "hi"`, `3000/300`. -/
theorem split_short_text_single_chunk_witness :
    0 < 3000 ∧ 300 < 3000 ∧ ("hi".toList).length ≤ 3000 - 300 ∧
      splitIntoChunks "hi".toList 3000 300 =
        (if (pyStrip "hi".toList).isEmpty then some [] else some [pyStrip "hi".toList]) :=
  ⟨by norm_num, by norm_num, by decide,
    split_short_text_single_chunk "hi".toList 3000 300 (by norm_num) (by norm_num) (by decide)⟩

/-! ### Claim C2 -/

/-- C2, counterexample: the content `"================\nhello"` splits
into the blocks `["", "\nhello"]`; the second block is nonempty after
trimming, yet the parser produces zero logical document groups, because
the block's trimmed form has a single line and the `len(lines) < 2`
guard skips it.  The claim predicts exactly one group. -/
theorem parse_one_line_block_skipped :
    splitBlocks ("================\nhello".toList) = [[], "\nhello".toList] ∧
      (pyStrip ("\nhello".toList)).isEmpty = false ∧
      parseAwesome ("================\nhello".toList) = [] := by
  refine ⟨by decide, by decide, by decide⟩

/-- C2, amended: one logical document group is produced for exactly
those blocks of the raw split that are nonempty after trimming AND whose
trimmed form splits into at least two lines (`keepB`); a kept block
whose first (trimmed) line does not start with `FILE:` is named
`section_<i>`, where `i` is the block's zero-based position in the raw
split sequence, counting skipped blocks. -/
theorem parse_blocks_spec (content : List Char) :
    (parseAwesome content).length = ((splitBlocks content).filter keepB).length ∧
      (∀ i b, (splitBlocks content)[i]? = some b →
        ((handleBlock i b).isSome = keepB b) ∧
          (keepB b = true →
            isPre fileColon (pyStrip ((splitLines (pyStrip b)).headD [])) = false →
            (handleBlock i b).map Prod.fst = some (sectionName i))) := by
  refine ⟨parseFrom_length (splitBlocks content) 0, ?_⟩
  intro i b _
  exact ⟨handleBlock_isSome i b, fun hk hf => handleBlock_section i b hk hf⟩

/-- C2, witness: on `"================\nfoo\nbar"`, the second raw block
is kept and, having no `FILE:` header, is named `section_1` (its raw
position, counting the skipped empty block 0). -/
theorem parse_blocks_spec_witness :
    (handleBlock 1 ("\nfoo\nbar".toList)).map Prod.fst = some (sectionName 1) :=
  ((parse_blocks_spec ("================\nfoo\nbar".toList)).2 1 ("\nfoo\nbar".toList)
    (by decide)).2 (by decide) (by decide)

/-! ### Claim C3 -/

/-- C3, counterexample: a single-file chunk set of 101 records is
submitted by `_ingest_single_file` as one `collection.add` call holding
all 101 records — a batch strictly larger than 100, contradicting the
claim that every ingestion path batches at most 100 at a time. -/
theorem single_submit_oversized_batch :
    List.replicate 101 demoRec ∈ singleSubmit (List.replicate 101 demoRec) ∧
      100 < (List.replicate 101 demoRec).length := by
  constructor
  · rw [singleSubmit,
      if_neg (by rw [show (101 : Nat) = 100 + 1 by norm_num, List.replicate_succ]; simp)]
    exact List.mem_singleton.mpr rfl
  · rw [List.length_replicate]
    norm_num

/-- C3, amended: bundle-path ingestion submits its records in
consecutive order-preserving batches of at most 100 — joining the
batches restores the record sequence, every batch is nonempty with at
most 100 records, and every batch before the last holds exactly 100, so
the final batch holds the remainder.  The single-file path instead
submits all records in one `collection.add` call, with no batch-size
bound. -/
theorem submit_batches_spec (l : List Record) :
    (awesomeSubmit l).flatten = l ∧
      (∀ b ∈ awesomeSubmit l, b.length ≤ 100 ∧ b ≠ []) ∧
      (∀ j, j + 1 < (awesomeSubmit l).length → ((awesomeSubmit l).getD j []).length = 100) ∧
      (singleSubmit l).flatten = l ∧
      (l.isEmpty = false → singleSubmit l = [l]) := by
  refine ⟨awesomeSubmit_flatten l, ?_, ?_, singleSubmit_flatten l, ?_⟩
  · intro b hb
    unfold awesomeSubmit at hb
    split at hb
    · simp at hb
    · exact batchLoop_mem l (l.length + 1) 0 b hb
  · intro j hj
    unfold awesomeSubmit at hj ⊢
    split at hj
    · simp at hj
    · rename_i hne
      rw [if_neg hne]
      exact batchLoop_nonlast l (l.length + 1) 0 j hj
  · intro hne
    unfold singleSubmit
    rw [if_neg (by rw [hne]; simp)]

/-- C3, witness of the amended theorem at a one-record list. -/
theorem submit_batches_spec_witness :
    (awesomeSubmit [demoRec]).flatten = [demoRec] ∧ singleSubmit [demoRec] = [[demoRec]] :=
  ⟨(submit_batches_spec [demoRec]).1, (submit_batches_spec [demoRec]).2.2.2.2 (by decide)⟩

/-! ### Claim C4 -/

/-- C4, counterexample: on `"ab\ncdef"` with `chunk_size = 4`,
`overlap = 0`, the candidate `"ab\nc"` does not reach the end of the
text and its last newline sits exactly at index `2 = 4 // 2`; the claim
("at or beyond the midpoint") predicts truncation at the newline, but
the code's strict `>` comparison leaves the candidate untouched. -/
theorem split_newline_at_midpoint_kept :
    rfindNL (pySlice ("ab\ncdef".toList) 0 (0 + ((4 : Nat) : Int))) = 2 ∧
      ((4 / 2 : Nat) : Int) ≤ 2 ∧
      (0 : Int) + ((4 : Nat) : Int) < (("ab\ncdef".toList).length : Int) ∧
      splitStep ("ab\ncdef".toList) 4 0 0 = ("ab\nc".toList, 4) ∧
      splitStep ("ab\ncdef".toList) 4 0 0 ≠
        (pyStrip (("ab\nc".toList).take 2), (0 : Int) + 2 - 0) := by
  refine ⟨by decide, by decide, by decide, by decide, by decide⟩

/-- C4, amended: at every loop step whose candidate does not reach the
end of the text, if the last newline within the candidate lies strictly
beyond `chunk_size // 2` (a newline exactly at that index does not
trigger truncation), then the emitted chunk is the whitespace-trimmed
truncation of the candidate at that newline (the newline excluded), and
the next start position is the newline's absolute position minus the
overlap. -/
theorem split_newline_truncation (text : List Char) (cs ov : Nat) (start : Int) (fuel : Nat)
    (h1 : start + (cs : Int) < (text.length : Int))
    (h2 : rfindNL (pySlice text start (start + (cs : Int))) > ((cs / 2 : Nat) : Int)) :
    splitStep text cs ov start =
        (pyStrip ((pySlice text start (start + (cs : Int))).take
            (rfindNL (pySlice text start (start + (cs : Int)))).toNat),
          start + rfindNL (pySlice text start (start + (cs : Int))) - (ov : Int)) ∧
      splitGo text cs ov (fuel + 1) start =
        (splitGo text cs ov fuel
            (start + rfindNL (pySlice text start (start + (cs : Int))) - (ov : Int))).map
          (fun r => pyStrip ((pySlice text start (start + (cs : Int))).take
            (rfindNL (pySlice text start (start + (cs : Int)))).toNat) :: r) := by
  have hstep : splitStep text cs ov start =
      (pyStrip ((pySlice text start (start + (cs : Int))).take
          (rfindNL (pySlice text start (start + (cs : Int)))).toNat),
        start + rfindNL (pySlice text start (start + (cs : Int))) - (ov : Int)) := by
    unfold splitStep
    rw [if_pos h1, if_pos h2]
  refine ⟨hstep, ?_⟩
  rw [splitGo, if_pos (by omega : start < (text.length : Int)), hstep]

/-- C4, witness: on `"abcdef\nghijklmno"` with `chunk_size = 10`,
`overlap = 9`, the candidate's last newline is at index `6 > 5`, so the
step emits the trimmed truncation and advances accordingly. -/
theorem split_newline_truncation_witness :
    splitStep badText 10 9 0 =
      (pyStrip ((pySlice badText 0 (0 + ((10 : Nat) : Int))).take
          (rfindNL (pySlice badText 0 (0 + ((10 : Nat) : Int)))).toNat),
        0 + rfindNL (pySlice badText 0 (0 + ((10 : Nat) : Int))) - ((9 : Nat) : Int)) :=
  (split_newline_truncation badText 10 9 0 0 (by decide) (by decide)).1

/-! ### Claim C5 -/

/-- C5, counterexample: `chunk_size = 10 > 0` and `0 ≤ overlap = 9 < 10`
satisfy the claim's preconditions, yet on `badText` the loop never
terminates: `start` cycles through `0, -3, -2, -1` forever (the
newline-truncation step moves `end` back past the overlap, and Python's
negative-index slicing keeps the loop alive).  The embedded function
reports `none` at its fuel bound, and `splitGo_bad_cycle` shows `none`
at every fuel, 1000 included. -/
theorem split_overlap_cycle :
    0 < 10 ∧ 9 < 10 ∧ splitIntoChunks badText 10 9 = none ∧
      splitGo badText 10 9 1000 0 = none := by
  refine ⟨by norm_num, by norm_num, ?_, (splitGo_bad_cycle 1000).1⟩
  unfold splitIntoChunks
  rw [(splitGo_bad_cycle (badText.length + 1)).1]
  rfl

/-- C5, amended: the chunking loop terminates for every input text
whenever `chunk_size > 0` and `overlap ≤ chunk_size // 2` (every
iteration then advances `start` by at least one); the pipeline's fixed
`3000/300` satisfies this.  For `chunk_size // 2 < overlap < chunk_size`
termination can fail, as `split_overlap_cycle` shows. -/
theorem split_terminates (text : List Char) (cs ov : Nat)
    (hcs : 0 < cs) (hov : ov ≤ cs / 2) :
    (splitIntoChunks text cs ov).isSome := by
  exact splitIntoChunks_isSome text cs ov hcs hov

/-- C5, witness of the amended theorem at the pipeline parameters. -/
theorem split_terminates_witness :
    0 < 3000 ∧ 300 ≤ 3000 / 2 ∧ (splitIntoChunks "abc".toList 3000 300).isSome :=
  ⟨by norm_num, by norm_num, split_terminates "abc".toList 3000 300 (by norm_num) (by norm_num)⟩

/-! ### Claim C6 -/

/-- C6: every identifier submitted to the store is
`<source_name with '/' replaced by '_'>_<chunk_index>` for bundle chunks
and `<base name with '.' replaced by '_'>_<chunk_index>` for single-file
chunks; and two ingestions of identical content under the identical
source name produce equal identifier sequences (the embedding is a pure
function of the content and base name, so re-ingestion collides and
overwrites by design). -/
theorem ingest_ids_spec :
    (∀ content base r, r ∈ awesomeRecords content base →
        r.rid = r.source.map slashU ++ '_' :: Nat.toDigits 10 r.chunkId) ∧
      (∀ content base r, r ∈ singleRecords content base →
        r.rid = base.map dotU ++ '_' :: Nat.toDigits 10 r.chunkId) ∧
      (∀ c b c2 b2, c = c2 → b = b2 →
        (awesomeRecords c b).map Record.rid = (awesomeRecords c2 b2).map Record.rid ∧
          (singleRecords c b).map Record.rid = (singleRecords c2 b2).map Record.rid) := by
  refine ⟨?_, ?_, ?_⟩
  · intro content base r hr
    exact awesomeRecords_spec content base r hr
  · intro content base r hr
    exact (singleChunkRecs_spec base _ _ 0 r hr).1
  · intro c b c2 b2 h1 h2
    subst h1
    subst h2
    exact ⟨rfl, rfl⟩

/-- C6, witness: ingesting `"hi"` under base name `t.md` yields the
single record with id `t_md_0`, matching the derivation rule. -/
theorem ingest_ids_spec_witness :
    hiRec.rid = "t.md".toList.map dotU ++ '_' :: Nat.toDigits 10 hiRec.chunkId :=
  ingest_ids_spec.2.1 "hi".toList "t.md".toList hiRec (by decide)

/-! ### Claim C7 -/

/-- C7: `ingest_file` returns the total count of chunks submitted to the
store (the length of the concatenation of all submitted batches), and
when the parsed input yields zero chunks the count is 0 and no
`collection.add` call is made — a normal result, not an error (the
embedded ingestion is total). -/
theorem ingest_count_spec (content base : List Char) :
    ingestFileCount content base = ((ingestFileBatches content base).flatten).length ∧
      (ingestFileCount content base = 0 → ingestFileBatches content base = []) := by
  unfold ingestFileCount ingestFileBatches
  by_cases hs : hasSep content
  · rw [if_pos hs, if_pos hs, awesomeSubmit_flatten]
    refine ⟨rfl, ?_⟩
    intro h0
    rw [List.length_eq_zero] at h0
    rw [h0]
    rfl
  · rw [if_neg hs, if_neg hs, singleSubmit_flatten]
    have hlen : (singleRecords content base).length = (splitChunks3000 content).length := by
      unfold singleRecords
      exact singleChunkRecs_length base _ _ 0
    refine ⟨hlen.symm, ?_⟩
    intro h0
    have : (singleRecords content base).length = 0 := by rw [hlen, h0]
    rw [List.length_eq_zero] at this
    rw [this]
    rfl

/-- C7, witness: whitespace-only content parses to zero chunks, the
returned count is 0 and no batch is submitted. -/
theorem ingest_count_spec_witness :
    ingestFileBatches " ".toList "w.txt".toList = [] :=
  (ingest_count_spec " ".toList "w.txt".toList).2 (by decide)

/-! ### Claim C8 -/

/-- C8, counterexample: for the bundle block header `FILE: aFILE:b`, the
remainder after the leading `FILE:` marker, trimmed, is `aFILE:b`; but
the code's `replace("FILE:", "")` removes every occurrence, so the
logical document is named `ab`. -/
theorem parse_file_header_replace_all :
    parseAwesome ("================\nFILE: aFILE:b\nxyz".toList) =
        [("ab".toList, "xyz".toList)] ∧
      pyStrip (("FILE: aFILE:b".toList).drop 5) = "aFILE:b".toList ∧
      ("ab".toList : List Char) ≠ "aFILE:b".toList := by
  refine ⟨by decide, by decide, by decide⟩

/-- C8, amended: for every non-empty bundle block whose first trimmed
line starts with `FILE:`, the logical document name is that first
trimmed line with every occurrence of the string `FILE:` removed, then
trimmed of surrounding whitespace (which equals the remainder after the
marker whenever `FILE:` occurs only as the leading marker). -/
theorem parse_file_header_name (i : Nat) (b l0 l1 : List Char) (rest : List (List Char))
    (hI : (pyStrip b).isEmpty = false)
    (hL : splitLines (pyStrip b) = l0 :: l1 :: rest)
    (hf : isPre fileColon (pyStrip l0) = true) :
    (handleBlock i b).map Prod.fst =
      some (pyStrip (removeAllStr fileColon (pyStrip l0))) := by
  unfold handleBlock
  rw [hI, hL]
  simp [hf]

/-- C8, witness: the block `FILE: a.py` + one content line is named by
the removal-then-trim rule (here producing `a.py`). -/
theorem parse_file_header_name_witness :
    (handleBlock 0 ("FILE: a.py\nprint".toList)).map Prod.fst =
      some (pyStrip (removeAllStr fileColon (pyStrip ("FILE: a.py".toList)))) :=
  parse_file_header_name 0 ("FILE: a.py\nprint".toList) ("FILE: a.py".toList)
    ("print".toList) [] (by decide) (by decide) (by decide)

/-! ### Claim C9 -/

/-- C9: the context block concatenates, per retrieved chunk and in
retrieval order, a `Source: <source metadata, or "unknown" when absent>`
line followed by that chunk's text, entries separated by a blank line;
and `chat` returns the `(name, content)` source pairs in the same order
as retrieved: names and contents project back to the retrieved sequence
positionally. -/
theorem answer_composer_spec :
    buildContext [] = [] ∧
      (∀ d rest, buildContext (d :: rest) =
        (srcLabel ++ (d.sourceMeta.getD unknownSrc) ++ '\n' :: d.content) ++
          (if rest.isEmpty then [] else '\n' :: '\n' :: buildContext rest)) ∧
      (∀ docs : List SearchDoc,
        (chatSources docs).map Prod.fst = docs.map (fun d => d.sourceMeta.getD unknownSrc) ∧
          (chatSources docs).map Prod.snd = docs.map SearchDoc.content ∧
          (chatSources docs).length = docs.length) := by
  refine ⟨rfl, buildContext_cons, ?_⟩
  intro docs
  refine ⟨?_, ?_, ?_⟩
  · simp [chatSources]
  · simp [chatSources]
  · simp [chatSources]

/-! ### Claim C10 -/

/-- C10: under the stated preconditions, every string returned by
`_split_into_chunks` has length at most `chunk_size`: each candidate is
a slice of at most `chunk_size` characters, and newline truncation and
trimming only shorten it. -/
theorem split_chunk_length_le (text : List Char) (cs ov : Nat) (chunks : List (List Char))
    (hcs : 0 < cs) (hov : ov < cs)
    (h : splitIntoChunks text cs ov = some chunks) :
    ∀ c ∈ chunks, c.length ≤ cs := by
  intro c hc
  unfold splitIntoChunks at h
  rcases Option.map_eq_some'.mp h with ⟨res, hres, hchunks⟩
  subst hchunks
  exact splitGo_length_le text cs ov (text.length + 1) 0 res hres c (List.mem_filter.mp hc).1

/-- C10, witness at `text = "a"`, `chunk_size = 1`, `overlap = 0`. -/
theorem split_chunk_length_le_witness :
    0 < 1 ∧ 0 < 1 ∧ splitIntoChunks ['a'] 1 0 = some [['a']] ∧ (['a'] : List Char).length ≤ 1 :=
  ⟨by norm_num, by norm_num, by decide,
    split_chunk_length_le ['a'] 1 0 [['a']] (by norm_num) (by norm_num) (by decide) ['a']
      (by decide)⟩
